import Mathlib

/-!
# CPSA binary scan-file decoder — shallow embedding of `reader.py`

The Python source decodes a proprietary binary file ("CPSA") into a header,
a list of frame records, a list of (bounds-filtered) track records and a
trailer, buffering records before flushing them into the output collections.

Embedding conventions:

* The byte source is a `List Nat` (each element one byte, little-endian
  multi-byte values).  `f.read(n)` returns `take n` and advances the cursor,
  returning fewer bytes near end-of-file, exactly as in Python.
* Python `float` arithmetic is idealized as exact arithmetic over `ℚ`;
  scale factors such as `1e-4` become `1/10000`.  IEEE-754 binary32 decoding
  (`struct.unpack('<f', …)`) is implemented exactly over `ℚ`; the NaN/Inf
  encodings (exponent 255) are mapped to `0`, which no claim depends on.
* `struct.unpack` raising on a short read, and the surrounding
  `try/finally/except` control flow, are modelled with `EStateM`: an error
  carries the mutable state at the point the exception was raised, matching
  Python exception semantics on an object with mutable attributes.
* `np.inf` bounds and "unbounded" buffer capacities are modelled by the
  extended rationals `ExtQ`.
-/

namespace CR39

/-- Two's-complement reading of a `w`-bit unsigned value as a signed integer. -/
def toSigned (w : Nat) (n : Nat) : Int :=
  if n < 2 ^ (w - 1) then (n : Int) else (n : Int) - 2 ^ w

/-- Little-endian value of a byte list (first byte least significant). -/
def leNat : List Nat → Nat
  | [] => 0
  | b :: bs => b + 256 * leNat bs

/-- IEEE-754 binary32 decoding of four little-endian bytes, exactly over `ℚ`.
Exponent 255 (Inf/NaN) is idealized to `0`; no claim touches such values. -/
def f32 (bs : List Nat) : ℚ :=
  let n : Nat := leNat bs
  let s : Nat := n / 2 ^ 31
  let e : Nat := (n / 2 ^ 23) % 2 ^ 8
  let m : Nat := n % 2 ^ 23
  let mag : ℚ :=
    if e = 0 then (m : ℚ) / 2 ^ 149
    else if e = 255 then 0
    else ((2 ^ 23 + m : ℚ) * 2 ^ e) / 2 ^ 150
  if s = 1 then -mag else mag

/-- A rational extended with `±∞`, for `np.inf` bounds and unbounded
buffer capacities. -/
inductive ExtQ where
  | negInf : ExtQ
  | fin : ℚ → ExtQ
  | posInf : ExtQ
deriving DecidableEq

/-- `q < b` for an extended bound `b` (Python `<` against a possibly
infinite bound). -/
def qltE (q : ℚ) (b : ExtQ) : Bool :=
  match b with
  | .negInf => false
  | .fin l => decide (q < l)
  | .posInf => true

/-- `q > b` for an extended bound `b`. -/
def qgtE (q : ℚ) (b : ExtQ) : Bool :=
  match b with
  | .negInf => true
  | .fin u => decide (u < q)
  | .posInf => false

/-- `q ≥ b` for an extended bound `b` (Python `len(buffer) >= capacity`). -/
def qgeE (q : ℚ) (b : ExtQ) : Bool :=
  match b with
  | .negInf => true
  | .fin c => decide (c ≤ q)
  | .posInf => false

/-- The six keyword-argument bound intervals of `ScanData.__init__`. -/
structure Bounds where
  d_bounds : ExtQ × ExtQ
  e_bounds : ExtQ × ExtQ
  c_bounds : ExtQ × ExtQ
  a_bounds : ExtQ × ExtQ
  x_bounds : ExtQ × ExtQ
  y_bounds : ExtQ × ExtQ
deriving DecidableEq

/-- The two buffer-capacity keyword arguments of `ScanData.__init__`. -/
structure Caps where
  frame_buffer_size : ExtQ
  track_buffer_size : ExtQ
deriving DecidableEq

/-- Python defaults: `d/e/c/a_bounds=(0, np.inf)`, `x/y_bounds=(-np.inf, np.inf)`. -/
def defaultBounds : Bounds :=
  { d_bounds := (.fin 0, .posInf)
    e_bounds := (.fin 0, .posInf)
    c_bounds := (.fin 0, .posInf)
    a_bounds := (.fin 0, .posInf)
    x_bounds := (.negInf, .posInf)
    y_bounds := (.negInf, .posInf) }

/-- Six intervals all equal to `(-∞, +∞)`: the "unbounded" configuration. -/
def unboundedBounds : Bounds :=
  { d_bounds := (.negInf, .posInf)
    e_bounds := (.negInf, .posInf)
    c_bounds := (.negInf, .posInf)
    a_bounds := (.negInf, .posInf)
    x_bounds := (.negInf, .posInf)
    y_bounds := (.negInf, .posInf) }

/-- Python defaults: `frame_buffer_size=5`, `track_buffer_size=1000`. -/
def defaultCaps : Caps :=
  { frame_buffer_size := .fin 5, track_buffer_size := .fin 1000 }

/-- The header dictionary built by `_parse_header` (scaled fields already
include their scaling, as in the source). -/
structure Header where
  version_number : Int
  num_x_frames : Int
  num_y_frames : Int
  num_bins : Int
  pixel_size : ℚ
  pixels_per_bin : ℚ
  border_limit : Int
  contrast_limit : Int
  eccentricity_limit : Int
  M : Int
  frame_width : ℚ
  frame_height : ℚ
deriving DecidableEq

/-- One row of the `frames` table. -/
structure Frame where
  number : Int
  x_position : ℚ
  y_position : ℚ
  num_tracks : Int
  focus : ℚ
  x_position_index : Int
  y_position_index : Int
deriving DecidableEq

/-- One row of the `tracks` table. -/
structure Track where
  frame_number : Int
  d : ℚ
  x : ℚ
  y : ℚ
  e : Int
  c : Int
  a : Int
deriving DecidableEq

/-- The decoder's mutable state: the unread remainder of the byte source,
the two output collections (`self.frames`, `self.tracks`) and the two
staging buffers local to `_parse_data`. -/
structure PState where
  stream : List Nat
  frames : List Frame
  tracks : List Track
  frame_buffer : List Frame
  track_buffer : List Track
deriving DecidableEq

/-- Decoder computations: state transformers whose exceptions carry the
state at the raise point (Python exception semantics). -/
abbrev PM (α : Type) := EStateM String PState α

/-- `get_next_value`: `f.read(size)` followed by `struct.unpack`, which
raises `struct.error` when fewer than `size` bytes were available. -/
def get_next_value (size : Nat) : PM (List Nat) := fun st =>
  let data := st.stream.take size
  if data.length = size then
    .ok data { st with stream := st.stream.drop size }
  else
    .error "struct.error" { st with stream := st.stream.drop size }

/-- `get_next_int`: little-endian signed 32-bit read (`struct` code `i`). -/
def get_next_int : PM Int := do
  pure (toSigned 32 (leNat (← get_next_value 4)))

/-- `get_next_float`: little-endian binary32 read (`struct` code `f`). -/
def get_next_float : PM ℚ := do
  pure (f32 (← get_next_value 4))

/-- `get_next_short`: little-endian signed 16-bit read (`struct` code `h`). -/
def get_next_short : PM Int := do
  pure (toSigned 16 (leNat (← get_next_value 2)))

/-- `get_next_byte`: signed 8-bit read (`struct` code `b`). -/
def get_next_byte : PM Int := do
  pure (toSigned 8 (leNat (← get_next_value 1)))

/-- `skip(n)` is `self._f.read(n)`: it advances past up to `n` bytes and
never raises, even when fewer than `n` bytes remain. -/
def skip (n : Nat) : PM Unit := fun st =>
  .ok () { st with stream := st.stream.drop n }

/-- `_parse_header`: twelve fixed-order primitive reads (10 × int32 and
2 × float32), then the two in-place scale steps for `frame_width` and
`frame_height`. -/
def parse_header : PM Header := do
  let version_number ← get_next_int
  let num_x_frames ← get_next_int
  let num_y_frames ← get_next_int
  let num_bins ← get_next_int
  let pixel_size : ℚ := (1 / 10000 : ℚ) * (← get_next_float)
  let pixels_per_bin ← get_next_float
  let border_limit ← get_next_int
  let contrast_limit ← get_next_int
  let eccentricity_limit ← get_next_int
  let M ← get_next_int
  let frame_width_raw ← get_next_int
  let frame_height_raw ← get_next_int
  pure
    { version_number := version_number
      num_x_frames := num_x_frames
      num_y_frames := num_y_frames
      num_bins := num_bins
      pixel_size := pixel_size
      pixels_per_bin := pixels_per_bin
      border_limit := border_limit
      contrast_limit := contrast_limit
      eccentricity_limit := eccentricity_limit
      M := M
      frame_width := (frame_width_raw : ℚ) * pixel_size
      frame_height := (frame_height_raw : ℚ) * pixel_size }

/-- The filter of `_parse_data`: a track is dropped by the first failing
`continue` check among `d`, `e`, `c`, `a`, `x`, `y`; it is kept when every
check passes.  Applied to the converted values `d_um`, `x_cm`, `y_cm`. -/
def accept (b : Bounds) (d_um : ℚ) (e c a : Int) (x_cm y_cm : ℚ) : Bool :=
  if qltE d_um b.d_bounds.1 || qgtE d_um b.d_bounds.2 then false
  else if qltE (e : ℚ) b.e_bounds.1 || qgtE (e : ℚ) b.e_bounds.2 then false
  else if qltE (c : ℚ) b.c_bounds.1 || qgtE (c : ℚ) b.c_bounds.2 then false
  else if qltE (a : ℚ) b.a_bounds.1 || qgtE (a : ℚ) b.a_bounds.2 then false
  else if qltE x_cm b.x_bounds.1 || qgtE x_cm b.x_bounds.2 then false
  else if qltE y_cm b.y_bounds.1 || qgtE y_cm b.y_bounds.2 then false
  else true

/-- The physical-unit conversion applied to one raw track sextuple
(lines computing `d_um`, `x_cm`, `y_cm` and the appended row). -/
def convTrack (h : Header) (number : Int) (xp yp : ℚ)
    (t : Int × Int × Int × Int × Int × Int) : Track :=
  { frame_number := number
    d := 100 * (t.1 : ℚ) * h.pixel_size
    x := xp - (1 / 2 : ℚ) * h.frame_width + (t.2.2.2.2.1 : ℚ) * h.pixel_size
    y := yp - (1 / 2 : ℚ) * h.frame_height + (t.2.2.2.2.2 : ℚ) * h.pixel_size
    e := t.2.1
    c := t.2.2.1
    a := t.2.2.2.1 }

/-- The per-track loop body of `_parse_data`: convert, filter, append to the
track staging buffer, and flush the buffer into `self.tracks` whenever it
reaches the capacity.  State is `(tracks, track_buffer)`. -/
def processTracks (caps : Caps) (b : Bounds) (h : Header) (number : Int)
    (xp yp : ℚ) :
    List (Int × Int × Int × Int × Int × Int) →
    List Track × List Track → List Track × List Track
  | [], acc => acc
  | (d, e, c, a, x, y) :: rest, (tracks, buf) =>
    let d_um : ℚ := 100 * (d : ℚ) * h.pixel_size
    let x_cm : ℚ := xp - (1 / 2 : ℚ) * h.frame_width + (x : ℚ) * h.pixel_size
    let y_cm : ℚ := yp - (1 / 2 : ℚ) * h.frame_height + (y : ℚ) * h.pixel_size
    if accept b d_um e c a x_cm y_cm then
      let buf' := buf ++
        [{ frame_number := number, d := d_um, x := x_cm, y := y_cm,
           e := e, c := c, a := a }]
      if qgeE (buf'.length : ℚ) caps.track_buffer_size then
        processTracks caps b h number xp yp rest (tracks ++ buf', [])
      else
        processTracks caps b h number xp yp rest (tracks, buf')
    else
      processTracks caps b h number xp yp rest (tracks, buf)

/-- Append one frame to the staging buffer and flush when the buffer reaches
capacity, as a pure function on `(frames, frame_buffer)`. -/
def pushF (caps : Caps) (fr : Frame) (p : List Frame × List Frame) :
    List Frame × List Frame :=
  let fb := p.2 ++ [fr]
  if qgeE (fb.length : ℚ) caps.frame_buffer_size then (p.1 ++ fb, [])
  else (p.1, fb)

/-- Append the just-decoded frame to the frame staging buffer and flush the
buffer into `self.frames` when it reaches the capacity. -/
def pushFrame (caps : Caps) (fr : Frame) : PM Unit := fun st =>
  let p := pushF caps fr (st.frames, st.frame_buffer)
  .ok () { st with frames := p.1, frame_buffer := p.2 }

/-- Run the pure per-track loop against the track components of the state. -/
def applyTracks (f : List Track × List Track → List Track × List Track) :
    PM Unit := fun st =>
  let p := f (st.tracks, st.track_buffer)
  .ok () { st with tracks := p.1, track_buffer := p.2 }

/-- `[self.get_next_…() for _ in range(num_tracks)]`: `n` sequential reads,
first element read first. -/
def readList (n : Nat) (rd : PM Int) : PM (List Int) :=
  match n with
  | 0 => pure []
  | n + 1 => do
    let v ← rd
    let vs ← readList n rd
    pure (v :: vs)

/-- Python `zip` over the six equal-length arrays (truncating at the
shortest, as `zip` does). -/
def zip6 : List Int → List Int → List Int → List Int → List Int → List Int →
    List (Int × Int × Int × Int × Int × Int)
  | d :: ds, e :: es, c :: cs, a :: la, x :: xs, y :: ys =>
    (d, e, c, a, x, y) :: zip6 ds es cs la xs ys
  | _, _, _, _, _, _ => []

/-- The frame-descriptor reads of one `_parse_data` loop iteration:
seven int32 reads with a 12-byte reserved skip before `focus`. -/
def read_descriptor : PM Frame := do
  let number ← get_next_int
  let x_position : ℚ := (1 / 100000 : ℚ) * ((← get_next_int : Int) : ℚ)
  let y_position : ℚ := (1 / 100000 : ℚ) * ((← get_next_int : Int) : ℚ)
  let num_tracks ← get_next_int
  skip 12
  let focus : ℚ := (1 / 100 : ℚ) * ((← get_next_int : Int) : ℚ)
  let x_position_index ← get_next_int
  let y_position_index ← get_next_int
  pure
    { number := number
      x_position := x_position
      y_position := y_position
      num_tracks := num_tracks
      focus := focus
      x_position_index := x_position_index
      y_position_index := y_position_index }

/-- The track-array reads and per-track processing of one loop iteration:
six arrays of `num_tracks` elements each, in the fixed order
`d, e, c, a, x, y` (`range` of a negative count is empty, hence `.toNat`). -/
def parse_tracks (caps : Caps) (b : Bounds) (h : Header) (number : Int)
    (xp yp : ℚ) (num_tracks : Int) : PM Unit := do
  let d_array ← readList num_tracks.toNat get_next_short
  let e_array ← readList num_tracks.toNat get_next_byte
  let c_array ← readList num_tracks.toNat get_next_byte
  let a_array ← readList num_tracks.toNat get_next_byte
  let x_array ← readList num_tracks.toNat get_next_short
  let y_array ← readList num_tracks.toNat get_next_short
  applyTracks (processTracks caps b h number xp yp
    (zip6 d_array e_array c_array a_array x_array y_array))

/-- One iteration of the `for _ in range(num_frames)` loop of `_parse_data`. -/
def parse_frame (caps : Caps) (b : Bounds) (h : Header) : PM Unit := do
  let fr ← read_descriptor
  pushFrame caps fr
  parse_tracks caps b h fr.number fr.x_position fr.y_position fr.num_tracks

/-- The whole frame loop, by remaining iteration count. -/
def parse_frames (caps : Caps) (b : Bounds) (h : Header) : Nat → PM Unit
  | 0 => pure ()
  | n + 1 => do
    parse_frame caps b h
    parse_frames caps b h n

/-- The `finally` block of `_parse_data`: flush any non-empty staging buffer
into its output collection. -/
def final_flush (st : PState) : PState :=
  let st1 :=
    if st.frame_buffer.isEmpty then st
    else { st with frames := st.frames ++ st.frame_buffer, frame_buffer := [] }
  if st1.track_buffer.isEmpty then st1
  else { st1 with tracks := st1.tracks ++ st1.track_buffer, track_buffer := [] }

/-- `_parse_data`: run the frame loop with fresh local buffers; whether it
raised or finished, the `finally` flush runs.  Returns `true` when a decode
error was raised (the exception that propagates out of `_parse_data`). -/
def parse_data (caps : Caps) (b : Bounds) (h : Header) : PM Bool := fun st =>
  let st0 := { st with frame_buffer := [], track_buffer := [] }
  let n := (h.num_x_frames * h.num_y_frames).toNat
  match parse_frames caps b h n st0 with
  | .ok _ st' => .ok false (final_flush st')
  | .error _ st' => .ok true (final_flush st')

/-- `_parse_trailer`: skip the 4-byte gap, then read every remaining byte
(neither step can fail). -/
def parse_trailer : PM (List Nat) := fun st =>
  let st' := { st with stream := st.stream.drop 4 }
  .ok st'.stream { st' with stream := [] }

/-- Everything `ScanData.__init__` exposes after construction: the header,
the two output tables, the trailer, and whether a decode error was raised
(and printed by the `except` block). -/
structure DecodeResult where
  header : Option Header
  frames : List Frame
  tracks : List Track
  trailer : Option (List Nat)
  decode_error : Bool
deriving DecidableEq

/-- The state at the start of `_parse`: the full file unread, empty tables. -/
def initState (file : List Nat) : PState :=
  { stream := file, frames := [], tracks := [],
    frame_buffer := [], track_buffer := [] }

/-- `ScanData(path, …)`: parse header, data and trailer in order; any
exception aborts the remaining phases (after `_parse_data`'s flush) and is
caught at the top, leaving the tables as flushed so far. -/
def scanData (caps : Caps) (b : Bounds) (file : List Nat) : DecodeResult :=
  match parse_header (initState file) with
  | .error _ st =>
    { header := none, frames := st.frames, tracks := st.tracks,
      trailer := none, decode_error := true }
  | .ok h st =>
    match parse_data caps b h st with
    | .error _ st' =>
      { header := some h, frames := st'.frames, tracks := st'.tracks,
        trailer := none, decode_error := true }
    | .ok err st' =>
      if err then
        { header := some h, frames := st'.frames, tracks := st'.tracks,
          trailer := none, decode_error := true }
      else
        match parse_trailer st' with
        | .error _ st'' =>
          { header := some h, frames := st''.frames, tracks := st''.tracks,
            trailer := none, decode_error := true }
        | .ok tr st'' =>
          { header := some h, frames := st''.frames, tracks := st''.tracks,
            trailer := some tr, decode_error := false }

/-! ## Pure reference functions

Cursor-free restatements of the byte-level decoding, used to characterize the
stateful decoder.  They are *derived views for proofs*; the authoritative
embedding of the source is the `PM` layer above. -/

/-- `true` on a successful `EStateM` result. -/
def isOkR {ε σ α : Type} : EStateM.Result ε σ α → Bool
  | .ok _ _ => true
  | .error _ _ => false

/-- The signed 32-bit little-endian integer at byte offset `k` of `s`. -/
def intAt (s : List Nat) (k : Nat) : Int :=
  toSigned 32 (leNat ((s.drop k).take 4))

/-- The header decoded from the first 48 bytes of `s`, field by field. -/
def headerOf (s : List Nat) : Header :=
  let px : ℚ := (1 / 10000 : ℚ) * f32 ((s.drop 16).take 4)
  { version_number := intAt s 0
    num_x_frames := intAt s 4
    num_y_frames := intAt s 8
    num_bins := intAt s 12
    pixel_size := px
    pixels_per_bin := f32 ((s.drop 20).take 4)
    border_limit := intAt s 24
    contrast_limit := intAt s 28
    eccentricity_limit := intAt s 32
    M := intAt s 36
    frame_width := (intAt s 40 : ℚ) * px
    frame_height := (intAt s 44 : ℚ) * px }

/-- Two states agree on every record collection and staging buffer. -/
def sameRecs (st st' : PState) : Prop :=
  st'.frames = st.frames ∧ st'.tracks = st.tracks ∧
  st'.frame_buffer = st.frame_buffer ∧ st'.track_buffer = st.track_buffer

/-- Frames visible after a flush: collection followed by staged records. -/
def joinF (st : PState) : List Frame := st.frames ++ st.frame_buffer

/-- Tracks visible after a flush: collection followed by staged records. -/
def joinT (st : PState) : List Track := st.tracks ++ st.track_buffer

/-- The bounds filter, viewed on an already-converted track record. -/
def acceptT (b : Bounds) (tr : Track) : Bool :=
  accept b tr.d tr.e tr.c tr.a tr.x tr.y

/-- `n` fixed-width signed reads (`w` bytes each, `sw`-bit sign) as a pure
function: the decoded values and the remaining bytes, or `none` on
truncation. -/
def refInts (w sw : Nat) : Nat → List Nat → Option (List Int × List Nat)
  | 0, s => some ([], s)
  | n + 1, s =>
    if w ≤ s.length then
      match refInts w sw n (s.drop w) with
      | some (vs, rest) => some (toSigned sw (leNat (s.take w)) :: vs, rest)
      | none => none
    else none

/-- The frame descriptor decoded from the head of `s` (40 bytes: four int32,
12 reserved bytes, three int32), or `none` on truncation. -/
def refDescriptor (s : List Nat) : Option (Frame × List Nat) :=
  if 40 ≤ s.length then
    some
      ({ number := intAt s 0
         x_position := (1 / 100000 : ℚ) * (intAt s 4 : ℚ)
         y_position := (1 / 100000 : ℚ) * (intAt s 8 : ℚ)
         num_tracks := intAt s 12
         focus := (1 / 100 : ℚ) * (intAt s 28 : ℚ)
         x_position_index := intAt s 32
         y_position_index := intAt s 36 }, s.drop 40)
  else none

/-- The six track arrays of a frame with `n` tracks, decoded from the head
of `s` in file order, or `none` on truncation. -/
def refArrays (n : Nat) (s : List Nat) :
    Option ((List Int × List Int × List Int × List Int × List Int × List Int)
      × List Nat) :=
  match refInts 2 16 n s with
  | none => none
  | some (da, s1) =>
    match refInts 1 8 n s1 with
    | none => none
    | some (ea, s2) =>
      match refInts 1 8 n s2 with
      | none => none
      | some (ca, s3) =>
        match refInts 1 8 n s3 with
        | none => none
        | some (la, s4) =>
          match refInts 2 16 n s4 with
          | none => none
          | some (xa, s5) =>
            match refInts 2 16 n s5 with
            | none => none
            | some (ya, s6) => some ((da, ea, ca, la, xa, ya), s6)

/-- The tracks of one frame that survive the bounds filter, in file order. -/
def frameTracks (b : Bounds) (h : Header) (fr : Frame)
    (da ea ca la xa ya : List Int) : List Track :=
  ((zip6 da ea ca la xa ya).map
      (convTrack h fr.number fr.x_position fr.y_position)).filter
    (fun tr => acceptT b tr)

/-- Pure form of the frame loop: decoded frames, surviving tracks, remaining
bytes, and whether decoding aborted on truncation. -/
def refLoop (b : Bounds) (h : Header) :
    Nat → List Nat → List Frame × List Track × List Nat × Bool
  | 0, s => ([], [], s, false)
  | n + 1, s =>
    match refDescriptor s with
    | none => ([], [], s, true)
    | some (fr, s1) =>
      match refArrays fr.num_tracks.toNat s1 with
      | none => ([fr], [], s1, true)
      | some ((da, ea, ca, la, xa, ya), s2) =>
        let r := refLoop b h n s2
        (fr :: r.1, frameTracks b h fr da ea ca la xa ya ++ r.2.1,
          r.2.2.1, r.2.2.2)

/-! ## A byte-level encoder

Used to build concrete well-formed and truncated input files for the claims
quantifying over files. -/

/-- `w` little-endian bytes of the natural number `n` (mod `256 ^ w`). -/
def encBytes : Nat → Nat → List Nat
  | 0, _ => []
  | w + 1, n => n % 256 :: encBytes w (n / 256)

/-- `w`-byte little-endian two's-complement encoding of the integer `v`. -/
def encInt (w : Nat) (v : Int) : List Nat :=
  encBytes w (v % (2 ^ (8 * w))).toNat

/-- Encode a frame descriptor (40 bytes) with an arbitrary `num_tracks`
field. -/
def encDescriptor (number xpr ypr nt : Int) (reserved : List Nat)
    (focus xi yi : Int) : List Nat :=
  encInt 4 number ++ encInt 4 xpr ++ encInt 4 ypr ++ encInt 4 nt ++
    reserved ++ encInt 4 focus ++ encInt 4 xi ++ encInt 4 yi

/-- The stream component of a run result (the cursor after the operation,
whether it succeeded or raised). -/
def resStream {ε α : Type} : EStateM.Result ε PState α → List Nat
  | .ok _ st => st.stream
  | .error _ st => st.stream

/-- Lower interval end `b ≤ q`, read off an extended bound. -/
def lbLe (b : ExtQ) (q : ℚ) : Prop :=
  match b with
  | .negInf => True
  | .fin l => l ≤ q
  | .posInf => False

/-- Upper interval end `q ≤ b`, read off an extended bound. -/
def ubGe (b : ExtQ) (q : ℚ) : Prop :=
  match b with
  | .negInf => False
  | .fin u => q ≤ u
  | .posInf => True

/-- `q` lies within the closed interval `iv`, inclusive on both ends. -/
def inIvl (iv : ExtQ × ExtQ) (q : ℚ) : Prop := lbLe iv.1 q ∧ ubGe iv.2 q

/-- An 88-byte file: a header declaring a 1 × 1 frame grid followed by one
frame block with zero tracks. -/
def file1x1 : List Nat :=
  [0, 0, 0, 0, 1, 0, 0, 0, 1, 0, 0, 0] ++ List.replicate 76 0

/-- A 40-byte frame descriptor whose `num_tracks` field encodes `-1`. -/
def negDesc : List Nat :=
  encDescriptor 0 0 0 (-1) (List.replicate 12 0) 0 0 0

/-- A 48-byte header block declaring a 1 × 1 frame grid. -/
def hdr48 : List Nat :=
  [0, 0, 0, 0, 1, 0, 0, 0, 1, 0, 0, 0] ++ List.replicate 36 0

/-- A 40-byte frame descriptor whose `num_tracks` field encodes `1`. -/
def oneDesc : List Nat :=
  encDescriptor 0 0 0 1 (List.replicate 12 0) 0 0 0

/-- A concrete header with `pixel_size = 1` and a 1 × 1 frame grid, for
witnesses. -/
def hdrOne : Header :=
  { version_number := 0, num_x_frames := 1, num_y_frames := 1, num_bins := 0,
    pixel_size := 1, pixels_per_bin := 0, border_limit := 0,
    contrast_limit := 0, eccentricity_limit := 0, M := 0,
    frame_width := 0, frame_height := 0 }

/-- One frame block of a structured file: its descriptor bytes, its
track-array bytes, and what they decode to. -/
structure EncFrameBlock where
  desc : List Nat
  arr : List Nat
  fr : Frame
  da : List Int
  ea : List Int
  ca : List Int
  la : List Int
  xa : List Int
  ya : List Int

/-- A frame block is well formed when its descriptor bytes decode to its
frame whatever follows them, and its array bytes decode to its six arrays
whatever follows them (so the block is self-delimiting). -/
def wfBlock (blk : EncFrameBlock) : Prop :=
  (∀ t, refDescriptor (blk.desc ++ t) = some (blk.fr, t)) ∧
  (∀ t, refArrays blk.fr.num_tracks.toNat (blk.arr ++ t) =
    some ((blk.da, blk.ea, blk.ca, blk.la, blk.xa, blk.ya), t))

/-- The bytes of a frame block. -/
def blockBytes (blk : EncFrameBlock) : List Nat := blk.desc ++ blk.arr

/-- The filtered tracks a frame block decodes to. -/
def blockTracks (b : Bounds) (h : Header) (blk : EncFrameBlock) :
    List Track :=
  frameTracks b h blk.fr blk.da blk.ea blk.ca blk.la blk.xa blk.ya

/-! ## Running the monadic decoder -/

theorem run_bind {α β : Type} (x : PM α) (f : α → PM β) (st : PState) :
    (x >>= f) st =
      match x st with
      | .ok a st' => f a st'
      | .error e st' => .error e st' := by
  cases hx : x st
  all_goals
    show EStateM.bind x f st = _
    simp [EStateM.bind, hx]

theorem run_pure {α : Type} (a : α) (st : PState) :
    (pure a : PM α) st = .ok a st := rfl

theorem run_map {α β : Type} (f : α → β) (x : PM α) (st : PState) :
    (f <$> x) st =
      match x st with
      | .ok a st' => .ok (f a) st'
      | .error e st' => .error e st' := by
  cases hx : x st
  all_goals
    show EStateM.map f x st = _
    simp [EStateM.map, hx]

theorem get_next_value_eq (size : Nat) (st : PState) :
    get_next_value size st =
      if size ≤ st.stream.length then
        .ok (st.stream.take size) { st with stream := st.stream.drop size }
      else
        .error "struct.error" { st with stream := st.stream.drop size } := by
  simp only [get_next_value, List.length_take]
  rcases le_or_lt size st.stream.length with h | h
  · rw [if_pos (by omega), if_pos h]
  · rw [if_neg (by omega), if_neg (by omega)]

theorem get_next_int_eq (st : PState) :
    get_next_int st =
      if 4 ≤ st.stream.length then
        .ok (toSigned 32 (leNat (st.stream.take 4)))
          { st with stream := st.stream.drop 4 }
      else
        .error "struct.error" { st with stream := st.stream.drop 4 } := by
  rcases le_or_lt 4 st.stream.length with h | h
  · simp only [get_next_int, run_bind, get_next_value_eq, if_pos h, run_pure]
  · simp only [get_next_int, run_bind, get_next_value_eq,
      if_neg (by omega : ¬ 4 ≤ st.stream.length)]

theorem get_next_float_eq (st : PState) :
    get_next_float st =
      if 4 ≤ st.stream.length then
        .ok (f32 (st.stream.take 4)) { st with stream := st.stream.drop 4 }
      else
        .error "struct.error" { st with stream := st.stream.drop 4 } := by
  rcases le_or_lt 4 st.stream.length with h | h
  · simp only [get_next_float, run_bind, get_next_value_eq, if_pos h, run_pure]
  · simp only [get_next_float, run_bind, get_next_value_eq,
      if_neg (by omega : ¬ 4 ≤ st.stream.length)]

theorem get_next_short_eq (st : PState) :
    get_next_short st =
      if 2 ≤ st.stream.length then
        .ok (toSigned 16 (leNat (st.stream.take 2)))
          { st with stream := st.stream.drop 2 }
      else
        .error "struct.error" { st with stream := st.stream.drop 2 } := by
  rcases le_or_lt 2 st.stream.length with h | h
  · simp only [get_next_short, run_bind, get_next_value_eq, if_pos h, run_pure]
  · simp only [get_next_short, run_bind, get_next_value_eq,
      if_neg (by omega : ¬ 2 ≤ st.stream.length)]

theorem get_next_byte_eq (st : PState) :
    get_next_byte st =
      if 1 ≤ st.stream.length then
        .ok (toSigned 8 (leNat (st.stream.take 1)))
          { st with stream := st.stream.drop 1 }
      else
        .error "struct.error" { st with stream := st.stream.drop 1 } := by
  rcases le_or_lt 1 st.stream.length with h | h
  · simp only [get_next_byte, run_bind, get_next_value_eq, if_pos h, run_pure]
  · simp only [get_next_byte, run_bind, get_next_value_eq,
      if_neg (by omega : ¬ 1 ≤ st.stream.length)]

theorem skip_eq (n : Nat) (st : PState) :
    skip n st = .ok () { st with stream := st.stream.drop n } := rfl

/-- Complete characterization of `_parse_header`: with at least 48 bytes it
returns `headerOf` of the stream and consumes exactly 48 bytes; with fewer
it raises `struct.error`, the cursor stranded at end-of-file, every record
collection untouched. -/
theorem parse_header_run (st : PState) :
    parse_header st =
      if 48 ≤ st.stream.length then
        .ok (headerOf st.stream) { st with stream := st.stream.drop 48 }
      else
        .error "struct.error" { st with stream := [] } := by
  rcases le_or_lt 48 st.stream.length with h | h
  · rw [if_pos h]
    have c1 : 4 ≤ st.stream.length := by omega
    have c2 : 4 ≤ st.stream.length - 4 := by omega
    have c3 : 4 ≤ st.stream.length - 8 := by omega
    have c4 : 4 ≤ st.stream.length - 12 := by omega
    have c5 : 4 ≤ st.stream.length - 16 := by omega
    have c6 : 4 ≤ st.stream.length - 20 := by omega
    have c7 : 4 ≤ st.stream.length - 24 := by omega
    have c8 : 4 ≤ st.stream.length - 28 := by omega
    have c9 : 4 ≤ st.stream.length - 32 := by omega
    have c10 : 4 ≤ st.stream.length - 36 := by omega
    have c11 : 4 ≤ st.stream.length - 40 := by omega
    have c12 : 4 ≤ st.stream.length - 44 := by omega
    simp [parse_header, run_bind, run_pure, run_map, get_next_int_eq, get_next_float_eq,
      List.drop_drop, List.length_drop, Nat.sub_sub, List.drop_zero,
      headerOf, intAt, c1, c2, c3, c4, c5, c6, c7, c8, c9, c10, c11, c12]
  · rw [if_neg (by omega)]
    rcases lt_or_le st.stream.length 4 with d1 | c1
    · have e : st.stream.drop 4 = [] := List.drop_eq_nil_of_le (by omega)
      have nc : ¬ 4 ≤ st.stream.length := by omega
      simp [parse_header, run_bind, run_map, get_next_int_eq,
        nc, e]
    rcases lt_or_le (st.stream.length - 4) 4 with d2 | c2
    · have e : st.stream.drop 8 = [] := List.drop_eq_nil_of_le (by omega)
      have nc : ¬ 4 ≤ st.stream.length - 4 := by omega
      simp [parse_header, run_bind, run_map, get_next_int_eq, List.drop_drop,
        List.length_drop, Nat.sub_sub, c1,
        nc, e]
    rcases lt_or_le (st.stream.length - 8) 4 with d3 | c3
    · have e : st.stream.drop 12 = [] := List.drop_eq_nil_of_le (by omega)
      have nc : ¬ 4 ≤ st.stream.length - 8 := by omega
      simp [parse_header, run_bind, run_map, get_next_int_eq, List.drop_drop,
        List.length_drop, Nat.sub_sub, c1, c2,
        nc, e]
    rcases lt_or_le (st.stream.length - 12) 4 with d4 | c4
    · have e : st.stream.drop 16 = [] := List.drop_eq_nil_of_le (by omega)
      have nc : ¬ 4 ≤ st.stream.length - 12 := by omega
      simp [parse_header, run_bind, run_map, get_next_int_eq, List.drop_drop,
        List.length_drop, Nat.sub_sub, c1, c2, c3,
        nc, e]
    rcases lt_or_le (st.stream.length - 16) 4 with d5 | c5
    · have e : st.stream.drop 20 = [] := List.drop_eq_nil_of_le (by omega)
      have nc : ¬ 4 ≤ st.stream.length - 16 := by omega
      simp [parse_header, run_bind, run_map, get_next_int_eq, get_next_float_eq,
        List.drop_drop, List.length_drop, Nat.sub_sub, c1, c2, c3, c4,
        nc, e]
    rcases lt_or_le (st.stream.length - 20) 4 with d6 | c6
    · have e : st.stream.drop 24 = [] := List.drop_eq_nil_of_le (by omega)
      have nc : ¬ 4 ≤ st.stream.length - 20 := by omega
      simp [parse_header, run_bind, run_map, get_next_int_eq, get_next_float_eq,
        List.drop_drop, List.length_drop, Nat.sub_sub, c1, c2, c3, c4, c5,
        nc, e]
    rcases lt_or_le (st.stream.length - 24) 4 with d7 | c7
    · have e : st.stream.drop 28 = [] := List.drop_eq_nil_of_le (by omega)
      have nc : ¬ 4 ≤ st.stream.length - 24 := by omega
      simp [parse_header, run_bind, run_map, get_next_int_eq, get_next_float_eq,
        List.drop_drop, List.length_drop, Nat.sub_sub, c1, c2, c3, c4, c5, c6,
        nc, e]
    rcases lt_or_le (st.stream.length - 28) 4 with d8 | c8
    · have e : st.stream.drop 32 = [] := List.drop_eq_nil_of_le (by omega)
      have nc : ¬ 4 ≤ st.stream.length - 28 := by omega
      simp [parse_header, run_bind, run_map, get_next_int_eq, get_next_float_eq,
        List.drop_drop, List.length_drop, Nat.sub_sub, c1, c2, c3, c4, c5, c6,
        c7, nc, e]
    rcases lt_or_le (st.stream.length - 32) 4 with d9 | c9
    · have e : st.stream.drop 36 = [] := List.drop_eq_nil_of_le (by omega)
      have nc : ¬ 4 ≤ st.stream.length - 32 := by omega
      simp [parse_header, run_bind, run_map, get_next_int_eq, get_next_float_eq,
        List.drop_drop, List.length_drop, Nat.sub_sub, c1, c2, c3, c4, c5, c6,
        c7, c8, nc, e]
    rcases lt_or_le (st.stream.length - 36) 4 with d10 | c10
    · have e : st.stream.drop 40 = [] := List.drop_eq_nil_of_le (by omega)
      have nc : ¬ 4 ≤ st.stream.length - 36 := by omega
      simp [parse_header, run_bind, run_map, get_next_int_eq, get_next_float_eq,
        List.drop_drop, List.length_drop, Nat.sub_sub, c1, c2, c3, c4, c5, c6,
        c7, c8, c9, nc, e]
    rcases lt_or_le (st.stream.length - 40) 4 with d11 | c11
    · have e : st.stream.drop 44 = [] := List.drop_eq_nil_of_le (by omega)
      have nc : ¬ 4 ≤ st.stream.length - 40 := by omega
      simp [parse_header, run_bind, run_map, get_next_int_eq, get_next_float_eq,
        List.drop_drop, List.length_drop, Nat.sub_sub, c1, c2, c3, c4, c5, c6,
        c7, c8, c9, c10, nc, e]
    have e : st.stream.drop 48 = [] := List.drop_eq_nil_of_le (by omega)
    have nc : ¬ 4 ≤ st.stream.length - 44 := by omega
    simp [parse_header, run_bind, run_map, get_next_int_eq, get_next_float_eq,
      List.drop_drop, List.length_drop, Nat.sub_sub, c1, c2, c3, c4, c5, c6,
      c7, c8, c9, c10, c11, nc, e]

theorem pushFrame_eq (caps : Caps) (fr : Frame) (st : PState) :
    pushFrame caps fr st =
      .ok () { st with frames := (pushF caps fr (st.frames, st.frame_buffer)).1,
                       frame_buffer := (pushF caps fr (st.frames, st.frame_buffer)).2 } := rfl

theorem applyTracks_eq (f : List Track × List Track → List Track × List Track)
    (st : PState) :
    applyTracks f st =
      .ok () { st with tracks := (f (st.tracks, st.track_buffer)).1,
                       track_buffer := (f (st.tracks, st.track_buffer)).2 } := rfl

/-- Staged-plus-flushed frames after a push: the pushed frame lands at the
end, whatever the capacity. -/
theorem pushF_join (caps : Caps) (fr : Frame) (p : List Frame × List Frame) :
    (pushF caps fr p).1 ++ (pushF caps fr p).2 = p.1 ++ p.2 ++ [fr] := by
  rcases Bool.eq_false_or_eq_true
      (qgeE (((p.2 ++ [fr]).length : Nat) : ℚ) caps.frame_buffer_size)
    with hq | hq
  · simp only [pushF, hq, if_true]
    simp
  · simp only [pushF, hq, Bool.false_eq_true, if_false]
    simp

/-- `convTrack` written out as a record literal. -/
theorem convTrack_mk (h : Header) (number : Int) (xp yp : ℚ)
    (d e c a x y : Int) :
    convTrack h number xp yp (d, e, c, a, x, y) =
      { frame_number := number, d := 100 * (d : ℚ) * h.pixel_size,
        x := xp - (1 / 2 : ℚ) * h.frame_width + (x : ℚ) * h.pixel_size,
        y := yp - (1 / 2 : ℚ) * h.frame_height + (y : ℚ) * h.pixel_size,
        e := e, c := c, a := a } := rfl

/-- The record-level filter agrees with the raw-level filter. -/
theorem acceptT_mk (b : Bounds) (number : Int) (du xc yc : ℚ) (e c a : Int) :
    acceptT b { frame_number := number, d := du, x := xc, y := yc,
                e := e, c := c, a := a } =
      accept b du e c a xc yc := rfl

/-- Staged-plus-flushed tracks after the per-track loop: the surviving
converted tracks land at the end in order, whatever the capacity. -/
theorem processTracks_join (caps : Caps) (b : Bounds) (h : Header)
    (number : Int) (xp yp : ℚ) :
    ∀ (l : List (Int × Int × Int × Int × Int × Int)) (tracks buf : List Track),
      (processTracks caps b h number xp yp l (tracks, buf)).1 ++
        (processTracks caps b h number xp yp l (tracks, buf)).2 =
      tracks ++ buf ++
        (l.map (convTrack h number xp yp)).filter (fun tr => acceptT b tr) := by
  intro l
  induction l with
  | nil => intro tracks buf; simp [processTracks]
  | cons t rest ih =>
    intro tracks buf
    obtain ⟨d, e, c, a, x, y⟩ := t
    simp only [processTracks, List.map_cons, List.filter_cons, convTrack_mk,
      acceptT_mk]
    set du : ℚ := 100 * (d : ℚ) * h.pixel_size with hdu
    set xc : ℚ := xp - (1 / 2 : ℚ) * h.frame_width + (x : ℚ) * h.pixel_size
      with hxc
    set yc : ℚ := yp - (1 / 2 : ℚ) * h.frame_height + (y : ℚ) * h.pixel_size
      with hyc
    rcases Bool.eq_false_or_eq_true (accept b du e c a xc yc) with hacc | hacc
    · simp only [hacc, if_true]
      rcases Bool.eq_false_or_eq_true (qgeE (((buf ++
          [({ frame_number := number, d := du, x := xc, y := yc,
              e := e, c := c, a := a } : Track)]).length : Nat) : ℚ)
          caps.track_buffer_size) with hq | hq
      · simp only [hq, if_true]
        rw [ih]
        simp [List.append_assoc]
      · simp only [hq, Bool.false_eq_true, if_false]
        rw [ih]
        simp [List.append_assoc]
    · simp only [hacc, Bool.false_eq_true, if_false]
      exact ih tracks buf

/-- `readList` run characterization against the pure `refInts`, for any
fixed-width reader. -/
theorem readList_run (rd : PM Int) (w sw : Nat)
    (hrd : ∀ st : PState, rd st =
      if w ≤ st.stream.length then
        .ok (toSigned sw (leNat (st.stream.take w)))
          { st with stream := st.stream.drop w }
      else
        .error "struct.error" { st with stream := st.stream.drop w }) :
    ∀ (n : Nat) (st : PState),
      (∀ vs rest, refInts w sw n st.stream = some (vs, rest) →
          readList n rd st = .ok vs { st with stream := rest }) ∧
      (refInts w sw n st.stream = none →
          ∃ st', readList n rd st = .error "struct.error" st' ∧
            sameRecs st st') := by
  intro n
  induction n with
  | zero =>
    intro st
    refine ⟨?_, ?_⟩
    · intro vs rest hsome
      simp only [refInts, Option.some.injEq, Prod.mk.injEq] at hsome
      rcases hsome with ⟨rfl, rfl⟩
      show (pure [] : PM (List Int)) st = _
      rw [run_pure]
    · intro hnone
      simp [refInts] at hnone
  | succ n ih =>
    intro st
    by_cases hw : w ≤ st.stream.length
    · cases hrec : refInts w sw n (st.stream.drop w) with
      | some p =>
        obtain ⟨vs', rest'⟩ := p
        refine ⟨?_, ?_⟩
        · intro vs rest hsome
          simp only [refInts] at hsome
          rw [if_pos hw, hrec] at hsome
          simp only [Option.some.injEq, Prod.mk.injEq] at hsome
          rcases hsome with ⟨rfl, rfl⟩
          have hih := (ih { st with stream := st.stream.drop w }).1 vs' rest'
            (by simpa using hrec)
          simp only [readList, run_bind, run_map, hrd, if_pos hw, hih]
          rfl
        · intro hnone
          simp [refInts, hw, hrec] at hnone
      | none =>
        refine ⟨?_, ?_⟩
        · intro vs rest hsome
          simp [refInts, hw, hrec] at hsome
        · intro _
          obtain ⟨st', herr, hrecs⟩ :=
            (ih { st with stream := st.stream.drop w }).2 (by simpa using hrec)
          refine ⟨st', ?_, hrecs⟩
          simp only [readList, run_bind, run_map, hrd, if_pos hw, herr]
    · refine ⟨?_, ?_⟩
      · intro vs rest hsome
        simp [refInts, hw] at hsome
      · intro _
        refine ⟨{ st with stream := st.stream.drop w }, ?_, ⟨rfl, rfl, rfl, rfl⟩⟩
        simp only [readList, run_bind, run_map, hrd, if_neg hw]

/-- Complete characterization of the frame-descriptor phase: with at least
40 bytes it succeeds, consuming exactly 40 (28 read + 12 skipped); with
fewer it raises `struct.error` with the records untouched. -/
theorem read_descriptor_run (st : PState) :
    read_descriptor st =
      if 40 ≤ st.stream.length then
        .ok { number := intAt st.stream 0
              x_position := (1 / 100000 : ℚ) * (intAt st.stream 4 : ℚ)
              y_position := (1 / 100000 : ℚ) * (intAt st.stream 8 : ℚ)
              num_tracks := intAt st.stream 12
              focus := (1 / 100 : ℚ) * (intAt st.stream 28 : ℚ)
              x_position_index := intAt st.stream 32
              y_position_index := intAt st.stream 36 }
          { st with stream := st.stream.drop 40 }
      else .error "struct.error" { st with stream := [] } := by
  rcases le_or_lt 40 st.stream.length with h | h
  · rw [if_pos h]
    have c1 : 4 ≤ st.stream.length := by omega
    have c2 : 4 ≤ st.stream.length - 4 := by omega
    have c3 : 4 ≤ st.stream.length - 8 := by omega
    have c4 : 4 ≤ st.stream.length - 12 := by omega
    have c5 : 4 ≤ st.stream.length - 28 := by omega
    have c6 : 4 ≤ st.stream.length - 32 := by omega
    have c7 : 4 ≤ st.stream.length - 36 := by omega
    simp [read_descriptor, run_bind, run_pure, run_map, get_next_int_eq,
      skip_eq, List.drop_drop, List.length_drop, Nat.sub_sub, List.drop_zero,
      intAt, c1, c2, c3, c4, c5, c6, c7]
  · rw [if_neg (by omega)]
    rcases lt_or_le st.stream.length 4 with d1 | c1
    · have e : st.stream.drop 4 = [] := List.drop_eq_nil_of_le (by omega)
      have nc : ¬ 4 ≤ st.stream.length := by omega
      simp [read_descriptor, run_bind, run_map, get_next_int_eq, nc, e]
    rcases lt_or_le (st.stream.length - 4) 4 with d2 | c2
    · have e : st.stream.drop 8 = [] := List.drop_eq_nil_of_le (by omega)
      have nc : ¬ 4 ≤ st.stream.length - 4 := by omega
      simp [read_descriptor, run_bind, run_map, get_next_int_eq,
        List.drop_drop, List.length_drop, Nat.sub_sub, c1, nc, e]
    rcases lt_or_le (st.stream.length - 8) 4 with d3 | c3
    · have e : st.stream.drop 12 = [] := List.drop_eq_nil_of_le (by omega)
      have nc : ¬ 4 ≤ st.stream.length - 8 := by omega
      simp [read_descriptor, run_bind, run_map, get_next_int_eq,
        List.drop_drop, List.length_drop, Nat.sub_sub, c1, c2, nc, e]
    rcases lt_or_le (st.stream.length - 12) 4 with d4 | c4
    · have e : st.stream.drop 16 = [] := List.drop_eq_nil_of_le (by omega)
      have nc : ¬ 4 ≤ st.stream.length - 12 := by omega
      simp [read_descriptor, run_bind, run_map, get_next_int_eq,
        List.drop_drop, List.length_drop, Nat.sub_sub, c1, c2, c3, nc, e]
    rcases lt_or_le (st.stream.length - 28) 4 with d5 | c5
    · have e : st.stream.drop 32 = [] := List.drop_eq_nil_of_le (by omega)
      have nc : ¬ 4 ≤ st.stream.length - 28 := by omega
      simp [read_descriptor, run_bind, run_map, get_next_int_eq, skip_eq,
        List.drop_drop, List.length_drop, Nat.sub_sub, c1, c2, c3, c4, nc, e]
    rcases lt_or_le (st.stream.length - 32) 4 with d6 | c6
    · have e : st.stream.drop 36 = [] := List.drop_eq_nil_of_le (by omega)
      have nc : ¬ 4 ≤ st.stream.length - 32 := by omega
      simp [read_descriptor, run_bind, run_map, get_next_int_eq, skip_eq,
        List.drop_drop, List.length_drop, Nat.sub_sub, c1, c2, c3, c4, c5,
        nc, e]
    rcases lt_or_le (st.stream.length - 36) 4 with d7 | c7
    · have e : st.stream.drop 40 = [] := List.drop_eq_nil_of_le (by omega)
      have nc : ¬ 4 ≤ st.stream.length - 36 := by omega
      simp [read_descriptor, run_bind, run_map, get_next_int_eq, skip_eq,
        List.drop_drop, List.length_drop, Nat.sub_sub, c1, c2, c3, c4, c5,
        c6, nc, e]
    omega

/-- Complete characterization of the track-array phase of one frame: on a
stream holding all six arrays it consumes them and runs the per-track loop;
on truncation inside the arrays it raises with every record collection
untouched (no track of this frame is ever staged). -/
theorem parse_tracks_run (caps : Caps) (b : Bounds) (h : Header)
    (number : Int) (xp yp : ℚ) (nt : Int) (st : PState) :
    (∀ da ea ca la xa ya rest,
        refArrays nt.toNat st.stream = some ((da, ea, ca, la, xa, ya), rest) →
          parse_tracks caps b h number xp yp nt st =
            .ok () { st with
                     stream := rest,
                     tracks := (processTracks caps b h number xp yp
                       (zip6 da ea ca la xa ya)
                       (st.tracks, st.track_buffer)).1,
                     track_buffer := (processTracks caps b h number xp yp
                       (zip6 da ea ca la xa ya)
                       (st.tracks, st.track_buffer)).2 }) ∧
    (refArrays nt.toNat st.stream = none →
        ∃ st', parse_tracks caps b h number xp yp nt st =
          .error "struct.error" st' ∧ sameRecs st st') := by
  have RS := readList_run get_next_short 2 16 get_next_short_eq
  have RB := readList_run get_next_byte 1 8 get_next_byte_eq
  cases h1 : refInts 2 16 nt.toNat st.stream with
  | none =>
    refine ⟨?_, ?_⟩
    · intro da ea ca la xa ya rest hsome
      simp [refArrays, h1] at hsome
    · intro _
      obtain ⟨st', herr, hrec⟩ := (RS nt.toNat st).2 h1
      refine ⟨st', ?_, hrec⟩
      simp [parse_tracks, run_bind, herr]
  | some p1 =>
    obtain ⟨da', s1⟩ := p1
    have hd := (RS nt.toNat st).1 da' s1 h1
    cases h2 : refInts 1 8 nt.toNat s1 with
    | none =>
      refine ⟨?_, ?_⟩
      · intro da ea ca la xa ya rest hsome
        simp [refArrays, h1, h2] at hsome
      · intro _
        obtain ⟨st', herr, hrec⟩ :=
          (RB nt.toNat { st with stream := s1 }).2 (by simpa using h2)
        refine ⟨st', ?_, hrec⟩
        simp [parse_tracks, run_bind, hd, herr]
    | some p2 =>
      obtain ⟨ea', s2⟩ := p2
      have he := (RB nt.toNat { st with stream := s1 }).1 ea' s2
        (by simpa using h2)
      cases h3 : refInts 1 8 nt.toNat s2 with
      | none =>
        refine ⟨?_, ?_⟩
        · intro da ea ca la xa ya rest hsome
          simp [refArrays, h1, h2, h3] at hsome
        · intro _
          obtain ⟨st', herr, hrec⟩ :=
            (RB nt.toNat { st with stream := s2 }).2 (by simpa using h3)
          refine ⟨st', ?_, hrec⟩
          simp [parse_tracks, run_bind, hd, he, herr]
      | some p3 =>
        obtain ⟨ca', s3⟩ := p3
        have hc := (RB nt.toNat { st with stream := s2 }).1 ca' s3
          (by simpa using h3)
        cases h4 : refInts 1 8 nt.toNat s3 with
        | none =>
          refine ⟨?_, ?_⟩
          · intro da ea ca la xa ya rest hsome
            simp [refArrays, h1, h2, h3, h4] at hsome
          · intro _
            obtain ⟨st', herr, hrec⟩ :=
              (RB nt.toNat { st with stream := s3 }).2 (by simpa using h4)
            refine ⟨st', ?_, hrec⟩
            simp [parse_tracks, run_bind, hd, he, hc, herr]
        | some p4 =>
          obtain ⟨la', s4⟩ := p4
          have ha := (RB nt.toNat { st with stream := s3 }).1 la' s4
            (by simpa using h4)
          cases h5 : refInts 2 16 nt.toNat s4 with
          | none =>
            refine ⟨?_, ?_⟩
            · intro da ea ca la xa ya rest hsome
              simp [refArrays, h1, h2, h3, h4, h5] at hsome
            · intro _
              obtain ⟨st', herr, hrec⟩ :=
                (RS nt.toNat { st with stream := s4 }).2 (by simpa using h5)
              refine ⟨st', ?_, hrec⟩
              simp [parse_tracks, run_bind, hd, he, hc, ha, herr]
          | some p5 =>
            obtain ⟨xa', s5⟩ := p5
            have hx := (RS nt.toNat { st with stream := s4 }).1 xa' s5
              (by simpa using h5)
            cases h6 : refInts 2 16 nt.toNat s5 with
            | none =>
              refine ⟨?_, ?_⟩
              · intro da ea ca la xa ya rest hsome
                simp [refArrays, h1, h2, h3, h4, h5, h6] at hsome
              · intro _
                obtain ⟨st', herr, hrec⟩ :=
                  (RS nt.toNat { st with stream := s5 }).2 (by simpa using h6)
                refine ⟨st', ?_, hrec⟩
                simp [parse_tracks, run_bind, hd, he, hc, ha, hx, herr]
            | some p6 =>
              obtain ⟨ya', s6⟩ := p6
              have hy := (RS nt.toNat { st with stream := s5 }).1 ya' s6
                (by simpa using h6)
              refine ⟨?_, ?_⟩
              · intro da ea ca la xa ya rest hsome
                simp only [refArrays, h1, h2, h3, h4, h5, h6,
                  Option.some.injEq, Prod.mk.injEq] at hsome
                rcases hsome with ⟨⟨rfl, rfl, rfl, rfl, rfl, rfl⟩, rfl⟩
                simp [parse_tracks, run_bind, hd, he, hc, ha, hx, hy,
                  applyTracks_eq]
              · intro hnone
                simp [refArrays, h1, h2, h3, h4, h5, h6] at hnone

theorem read_descriptor_of_ref (st : PState) (fr : Frame) (s1 : List Nat)
    (hdesc : refDescriptor st.stream = some (fr, s1)) :
    read_descriptor st = .ok fr { st with stream := s1 } := by
  simp only [refDescriptor] at hdesc
  by_cases hlen : 40 ≤ st.stream.length
  · rw [if_pos hlen] at hdesc
    simp only [Option.some.injEq, Prod.mk.injEq] at hdesc
    rcases hdesc with ⟨rfl, rfl⟩
    rw [read_descriptor_run, if_pos hlen]
  · rw [if_neg hlen] at hdesc
    cases hdesc

theorem read_descriptor_of_ref_none (st : PState)
    (hdesc : refDescriptor st.stream = none) :
    read_descriptor st = .error "struct.error" { st with stream := [] } := by
  simp only [refDescriptor] at hdesc
  by_cases hlen : 40 ≤ st.stream.length
  · rw [if_pos hlen] at hdesc
    cases hdesc
  · rw [read_descriptor_run, if_neg hlen]

/-- Complete characterization of one frame-loop iteration: either the
descriptor truncates (nothing staged), or the descriptor decodes and the
arrays truncate (exactly the frame staged, no track), or everything decodes
(the frame staged and its surviving tracks staged). -/
theorem parse_frame_run (caps : Caps) (b : Bounds) (h : Header)
    (st : PState) :
    (refDescriptor st.stream = none →
        ∃ st', parse_frame caps b h st = .error "struct.error" st' ∧
          sameRecs st st') ∧
    (∀ fr s1, refDescriptor st.stream = some (fr, s1) →
      (∀ da ea ca la xa ya rest,
          refArrays fr.num_tracks.toNat s1 =
              some ((da, ea, ca, la, xa, ya), rest) →
            parse_frame caps b h st =
              .ok () { stream := rest,
                       frames := (pushF caps fr (st.frames, st.frame_buffer)).1,
                       tracks := (processTracks caps b h fr.number
                         fr.x_position fr.y_position (zip6 da ea ca la xa ya)
                         (st.tracks, st.track_buffer)).1,
                       frame_buffer :=
                         (pushF caps fr (st.frames, st.frame_buffer)).2,
                       track_buffer := (processTracks caps b h fr.number
                         fr.x_position fr.y_position (zip6 da ea ca la xa ya)
                         (st.tracks, st.track_buffer)).2 }) ∧
      (refArrays fr.num_tracks.toNat s1 = none →
          ∃ st', parse_frame caps b h st = .error "struct.error" st' ∧
            st'.frames = (pushF caps fr (st.frames, st.frame_buffer)).1 ∧
            st'.frame_buffer = (pushF caps fr (st.frames, st.frame_buffer)).2 ∧
            st'.tracks = st.tracks ∧ st'.track_buffer = st.track_buffer)) := by
  constructor
  · intro hnone
    have hD := read_descriptor_of_ref_none st hnone
    refine ⟨{ st with stream := [] }, ?_, ⟨rfl, rfl, rfl, rfl⟩⟩
    simp [parse_frame, run_bind, hD]
  · intro fr s1 hsome
    have hD := read_descriptor_of_ref st fr s1 hsome
    constructor
    · intro da ea ca la xa ya rest harr
      have HT := (parse_tracks_run caps b h fr.number fr.x_position
          fr.y_position fr.num_tracks
          { st with stream := s1,
                    frames := (pushF caps fr (st.frames, st.frame_buffer)).1,
                    frame_buffer :=
                      (pushF caps fr (st.frames, st.frame_buffer)).2 }).1
        da ea ca la xa ya rest harr
      simp [parse_frame, run_bind, hD, pushFrame_eq, HT]
    · intro harr
      obtain ⟨st', herr, hrec⟩ := (parse_tracks_run caps b h fr.number
          fr.x_position fr.y_position fr.num_tracks
          { st with stream := s1,
                    frames := (pushF caps fr (st.frames, st.frame_buffer)).1,
                    frame_buffer :=
                      (pushF caps fr (st.frames, st.frame_buffer)).2 }).2 harr
      refine ⟨st', ?_, ?_⟩
      · simp [parse_frame, run_bind, hD, pushFrame_eq, herr]
      · obtain ⟨f1, f2, f3, f4⟩ := hrec
        exact ⟨f1, f3, f2, f4⟩

/-- The frame loop against the pure `refLoop`: whatever the capacities, the
flushed-plus-staged collections grow by exactly the loop's decoded frames
and surviving tracks, and the loop errors exactly when `refLoop` reports
truncation. -/
theorem parse_frames_run (caps : Caps) (b : Bounds) (h : Header) :
    ∀ (n : Nat) (st : PState),
      ((refLoop b h n st.stream).2.2.2 = false →
        ∃ st', parse_frames caps b h n st = .ok () st' ∧
          st'.stream = (refLoop b h n st.stream).2.2.1 ∧
          joinF st' = joinF st ++ (refLoop b h n st.stream).1 ∧
          joinT st' = joinT st ++ (refLoop b h n st.stream).2.1) ∧
      ((refLoop b h n st.stream).2.2.2 = true →
        ∃ e st', parse_frames caps b h n st = .error e st' ∧
          joinF st' = joinF st ++ (refLoop b h n st.stream).1 ∧
          joinT st' = joinT st ++ (refLoop b h n st.stream).2.1) := by
  intro n
  induction n with
  | zero =>
    intro st
    simp only [refLoop]
    refine ⟨?_, ?_⟩
    · intro _
      refine ⟨st, ?_, rfl, by simp [joinF], by simp [joinT]⟩
      simp [parse_frames, run_pure]
    · intro hcontra
      cases hcontra
  | succ n ih =>
    intro st
    rcases hdesc : refDescriptor st.stream with _ | ⟨fr, s1⟩
    · obtain ⟨st', herr, hrec⟩ := (parse_frame_run caps b h st).1 hdesc
      obtain ⟨f1, f2, f3, f4⟩ := hrec
      simp only [refLoop, hdesc]
      refine ⟨?_, ?_⟩
      · intro hcontra
        cases hcontra
      · intro _
        refine ⟨"struct.error", st', ?_, ?_, ?_⟩
        · simp [parse_frames, run_bind, herr]
        · simp [joinF, f1, f3]
        · simp [joinT, f2, f4]
    · rcases harr : refArrays fr.num_tracks.toNat s1 with _ | ⟨⟨da, ea, ca, la, xa, ya⟩, s2⟩
      · obtain ⟨st', herr, hf, hfb, ht, htb⟩ :=
          ((parse_frame_run caps b h st).2 fr s1 hdesc).2 harr
        simp only [refLoop, hdesc, harr]
        refine ⟨?_, ?_⟩
        · intro hcontra
          cases hcontra
        · intro _
          refine ⟨"struct.error", st', ?_, ?_, ?_⟩
          · simp [parse_frames, run_bind, herr]
          · rw [joinF, hf, hfb, pushF_join]
            simp [joinF]
          · simp [joinT, ht, htb]
      · have hok := ((parse_frame_run caps b h st).2 fr s1 hdesc).1
          da ea ca la xa ya s2 harr
        set st1 : PState :=
          { stream := s2,
            frames := (pushF caps fr (st.frames, st.frame_buffer)).1,
            tracks := (processTracks caps b h fr.number fr.x_position
              fr.y_position (zip6 da ea ca la xa ya)
              (st.tracks, st.track_buffer)).1,
            frame_buffer := (pushF caps fr (st.frames, st.frame_buffer)).2,
            track_buffer := (processTracks caps b h fr.number fr.x_position
              fr.y_position (zip6 da ea ca la xa ya)
              (st.tracks, st.track_buffer)).2 } with hst1
        have hJF : joinF st1 = joinF st ++ [fr] := by
          rw [hst1]
          show (pushF caps fr (st.frames, st.frame_buffer)).1 ++
            (pushF caps fr (st.frames, st.frame_buffer)).2 = _
          rw [pushF_join]
          rfl
        have hJT : joinT st1 = joinT st ++
            frameTracks b h fr da ea ca la xa ya := by
          rw [hst1]
          show (processTracks caps b h fr.number fr.x_position fr.y_position
              (zip6 da ea ca la xa ya) (st.tracks, st.track_buffer)).1 ++
            (processTracks caps b h fr.number fr.x_position fr.y_position
              (zip6 da ea ca la xa ya) (st.tracks, st.track_buffer)).2 = _
          rw [processTracks_join]
          rfl
        obtain ⟨IH1, IH2⟩ := ih st1
        simp only [refLoop, hdesc, harr]
        refine ⟨?_, ?_⟩
        · intro hfalse
          obtain ⟨st'', hrun, hstream, hJF2, hJT2⟩ := IH1 hfalse
          refine ⟨st'', ?_, hstream, ?_, ?_⟩
          · simp [parse_frames, run_bind, hok, hrun]
          · rw [hJF2, hJF]
            simp [List.append_assoc]
          · rw [hJT2, hJT]
            simp [List.append_assoc]
        · intro htrue
          obtain ⟨e, st'', hrun, hJF2, hJT2⟩ := IH2 htrue
          refine ⟨e, st'', ?_, ?_, ?_⟩
          · simp [parse_frames, run_bind, hok, hrun]
          · rw [hJF2, hJF]
            simp [List.append_assoc]
          · rw [hJT2, hJT]
            simp [List.append_assoc]

/-- The `finally` flush moves exactly the staged records into the output
collections, leaving the cursor alone. -/
theorem final_flush_eq (st : PState) :
    final_flush st =
      { stream := st.stream, frames := joinF st, tracks := joinT st,
        frame_buffer := [], track_buffer := [] } := by
  obtain ⟨s, f, t, fb, tb⟩ := st
  cases fb <;> cases tb <;> simp [final_flush, joinF, joinT]

/-- `_parse_data` against the pure `refLoop`: the returned flag records
whether the loop raised, and in either case the flush guarantees the output
collections hold exactly the previously-flushed records followed by every
decoded frame and surviving track. -/
theorem parse_data_run (caps : Caps) (b : Bounds) (h : Header) (st : PState) :
    ((refLoop b h (h.num_x_frames * h.num_y_frames).toNat st.stream).2.2.2
        = false →
      parse_data caps b h st = .ok false
        { stream :=
            (refLoop b h (h.num_x_frames * h.num_y_frames).toNat
              st.stream).2.2.1,
          frames := st.frames ++
            (refLoop b h (h.num_x_frames * h.num_y_frames).toNat
              st.stream).1,
          tracks := st.tracks ++
            (refLoop b h (h.num_x_frames * h.num_y_frames).toNat
              st.stream).2.1,
          frame_buffer := [], track_buffer := [] }) ∧
    ((refLoop b h (h.num_x_frames * h.num_y_frames).toNat st.stream).2.2.2
        = true →
      ∃ s', parse_data caps b h st = .ok true
        { stream := s',
          frames := st.frames ++
            (refLoop b h (h.num_x_frames * h.num_y_frames).toNat
              st.stream).1,
          tracks := st.tracks ++
            (refLoop b h (h.num_x_frames * h.num_y_frames).toNat
              st.stream).2.1,
          frame_buffer := [], track_buffer := [] }) := by
  obtain ⟨P1, P2⟩ := parse_frames_run caps b h
    (h.num_x_frames * h.num_y_frames).toNat
    { st with frame_buffer := [], track_buffer := [] }
  constructor
  · intro hfalse
    obtain ⟨st', hrun, hstream, hJF, hJT⟩ := P1 hfalse
    simp only [parse_data, hrun, final_flush_eq, hstream, hJF, hJT]
    simp [joinF, joinT]
  · intro htrue
    obtain ⟨e, st', hrun, hJF, hJT⟩ := P2 htrue
    refine ⟨st'.stream, ?_⟩
    simp only [parse_data, hrun, final_flush_eq, hJF, hJT]
    simp [joinF, joinT]

/-- `ScanData` end to end against the pure reference: header, frame table,
track table, trailer and the decode-error flag, for every file and every
configuration. -/
theorem scanData_run (caps : Caps) (b : Bounds) (file : List Nat) :
    scanData caps b file =
      if 48 ≤ file.length then
        (if (refLoop b (headerOf file)
              ((headerOf file).num_x_frames *
                (headerOf file).num_y_frames).toNat (file.drop 48)).2.2.2
            = true then
          { header := some (headerOf file),
            frames := (refLoop b (headerOf file)
              ((headerOf file).num_x_frames *
                (headerOf file).num_y_frames).toNat (file.drop 48)).1,
            tracks := (refLoop b (headerOf file)
              ((headerOf file).num_x_frames *
                (headerOf file).num_y_frames).toNat (file.drop 48)).2.1,
            trailer := none, decode_error := true }
        else
          { header := some (headerOf file),
            frames := (refLoop b (headerOf file)
              ((headerOf file).num_x_frames *
                (headerOf file).num_y_frames).toNat (file.drop 48)).1,
            tracks := (refLoop b (headerOf file)
              ((headerOf file).num_x_frames *
                (headerOf file).num_y_frames).toNat (file.drop 48)).2.1,
            trailer := some (((refLoop b (headerOf file)
              ((headerOf file).num_x_frames *
                (headerOf file).num_y_frames).toNat
              (file.drop 48)).2.2.1).drop 4),
            decode_error := false })
      else
        { header := none, frames := [], tracks := [], trailer := none,
          decode_error := true } := by
  rcases le_or_lt 48 file.length with hlen | hlen
  · rw [if_pos hlen]
    have hH : parse_header (initState file) =
        .ok (headerOf file) { initState file with stream := file.drop 48 } := by
      simp [parse_header_run, initState, hlen]
    obtain ⟨P1, P2⟩ := parse_data_run caps b (headerOf file)
      { initState file with stream := file.drop 48 }
    rcases Bool.eq_false_or_eq_true ((refLoop b (headerOf file)
        ((headerOf file).num_x_frames *
          (headerOf file).num_y_frames).toNat (file.drop 48)).2.2.2)
      with herr | herr
    · rw [if_pos herr]
      obtain ⟨s', hPD⟩ := P2 herr
      simp only [scanData, hH, hPD, if_true]
      simp [initState]
    · rw [if_neg (by simp [herr])]
      have hPD := P1 herr
      simp only [scanData, hH, hPD]
      simp [initState, parse_trailer]
  · rw [if_neg (by omega)]
    have hH : parse_header (initState file) =
        .error "struct.error" { initState file with stream := [] } := by
      have nc : ¬ 48 ≤ file.length := by omega
      simp [parse_header_run, initState, nc]
    simp only [scanData, hH]
    simp [initState]

/-! ## Bounds-filter helpers -/

/-- One interval check of the filter: the `continue` test fails exactly when
the value lies in the closed interval. -/
theorem pass_iff (lo hi : ExtQ) (q : ℚ) :
    (qltE q lo || qgtE q hi) = false ↔ inIvl (lo, hi) q := by
  cases lo <;> cases hi <;>
    simp [qltE, qgtE, inIvl, lbLe, ubGe, not_lt]

/-- The whole filter accepts exactly when all six fields lie within their
intervals. -/
theorem accept_true_iff (bd : Bounds) (du xc yc : ℚ) (e c a : Int) :
    accept bd du e c a xc yc = true ↔
      inIvl bd.d_bounds du ∧ inIvl bd.e_bounds (e : ℚ) ∧
      inIvl bd.c_bounds (c : ℚ) ∧ inIvl bd.a_bounds (a : ℚ) ∧
      inIvl bd.x_bounds xc ∧ inIvl bd.y_bounds yc := by
  unfold accept
  rcases h1 : (qltE du bd.d_bounds.1 || qgtE du bd.d_bounds.2) with _ | _
  case true =>
    have hni : ¬ inIvl bd.d_bounds du := by
      rw [← pass_iff]
      simp [h1]
    simp [h1, hni]
  have hi1 : inIvl bd.d_bounds du := (pass_iff _ _ _).mp h1
  rcases h2 : (qltE (e : ℚ) bd.e_bounds.1 || qgtE (e : ℚ) bd.e_bounds.2)
    with _ | _
  case true =>
    have hni : ¬ inIvl bd.e_bounds (e : ℚ) := by
      rw [← pass_iff]
      simp [h2]
    simp [h1, h2, hni]
  have hi2 : inIvl bd.e_bounds (e : ℚ) := (pass_iff _ _ _).mp h2
  rcases h3 : (qltE (c : ℚ) bd.c_bounds.1 || qgtE (c : ℚ) bd.c_bounds.2)
    with _ | _
  case true =>
    have hni : ¬ inIvl bd.c_bounds (c : ℚ) := by
      rw [← pass_iff]
      simp [h3]
    simp [h1, h2, h3, hni]
  have hi3 : inIvl bd.c_bounds (c : ℚ) := (pass_iff _ _ _).mp h3
  rcases h4 : (qltE (a : ℚ) bd.a_bounds.1 || qgtE (a : ℚ) bd.a_bounds.2)
    with _ | _
  case true =>
    have hni : ¬ inIvl bd.a_bounds (a : ℚ) := by
      rw [← pass_iff]
      simp [h4]
    simp [h1, h2, h3, h4, hni]
  have hi4 : inIvl bd.a_bounds (a : ℚ) := (pass_iff _ _ _).mp h4
  rcases h5 : (qltE xc bd.x_bounds.1 || qgtE xc bd.x_bounds.2) with _ | _
  case true =>
    have hni : ¬ inIvl bd.x_bounds xc := by
      rw [← pass_iff]
      simp [h5]
    simp [h1, h2, h3, h4, h5, hni]
  have hi5 : inIvl bd.x_bounds xc := (pass_iff _ _ _).mp h5
  rcases h6 : (qltE yc bd.y_bounds.1 || qgtE yc bd.y_bounds.2) with _ | _
  case true =>
    have hni : ¬ inIvl bd.y_bounds yc := by
      rw [← pass_iff]
      simp [h6]
    simp [h1, h2, h3, h4, h5, h6, hni]
  have hi6 : inIvl bd.y_bounds yc := (pass_iff _ _ _).mp h6
  simp [h1, h2, h3, h4, h5, h6, hi1, hi2, hi3, hi4, hi5, hi6]

/-- The all-`(-∞, +∞)` configuration accepts everything. -/
theorem accept_unbounded (du xc yc : ℚ) (e c a : Int) :
    accept unboundedBounds du e c a xc yc = true := by
  simp [accept, unboundedBounds, qltE, qgtE]

/-! ## Claim theorems -/

/-- C1 (amended): the Header Decoder consumes exactly twelve primitives
(10 little-endian int32 plus 2 little-endian float32) in a fixed,
unconditional order — it succeeds on any stream of at least 48 bytes,
producing the twelve fields of `headerOf` read at fixed offsets and
consuming exactly 48 bytes (not 44) regardless of the byte values, and
fails on any shorter stream. -/
theorem spec_C1_header_layout (st : PState) :
    (48 ≤ st.stream.length →
      parse_header st =
        .ok (headerOf st.stream) { st with stream := st.stream.drop 48 }) ∧
    (st.stream.length < 48 →
      parse_header st = .error "struct.error" { st with stream := [] }) := by
  constructor
  · intro hlen
    rw [parse_header_run, if_pos hlen]
  · intro hlen
    rw [parse_header_run, if_neg (by omega)]

theorem spec_C1_header_layout_witness :
    parse_header (initState (List.replicate 48 0)) =
      .ok (headerOf (List.replicate 48 0))
        { initState (List.replicate 48 0) with
          stream := (List.replicate 48 0 : List Nat).drop 48 } ∧
    parse_header (initState (List.replicate 44 0)) =
      .error "struct.error" { initState (List.replicate 44 0) with
        stream := [] } :=
  ⟨(spec_C1_header_layout (initState (List.replicate 48 0))).1 (by decide),
   (spec_C1_header_layout (initState (List.replicate 44 0))).2 (by decide)⟩

/-- C1 counterexample: the header region is 48 bytes, not 44 — a 44-byte
file fails header decoding, while a 48-byte file decodes with no byte left
unread. -/
theorem spec_C1_counterexample :
    isOkR (parse_header (initState (List.replicate 44 0))) = false ∧
    isOkR (parse_header (initState (List.replicate 48 0))) = true ∧
    resStream (parse_header (initState (List.replicate 48 0))) = [] := by
  refine ⟨?_, ?_, ?_⟩ <;> decide

/-- C3: decoding is invariant under the buffer capacities — for every file
and every two capacity configurations (with the same bounds), the decoder
returns identical headers, frame tables, track tables, trailers and error
flags, membership and order included. -/
theorem spec_C3_buffering_transparency (caps1 caps2 : Caps) (b : Bounds)
    (file : List Nat) :
    scanData caps1 b file = scanData caps2 b file := by
  rw [scanData_run, scanData_run]

/-- C6: in every successfully decoded header, `pixel_size` is `1e-4` times
the raw encoded float, and `frame_width`/`frame_height` are the raw
integers multiplied by the already-scaled `pixel_size` — the scaling is
applied exactly once, after the raw integer read. -/
theorem spec_C6_header_scaling (st : PState) (h : Header) (st' : PState)
    (hrun : parse_header st = .ok h st') :
    h.pixel_size = (1 / 10000 : ℚ) * f32 ((st.stream.drop 16).take 4) ∧
    h.frame_width =
      (toSigned 32 (leNat ((st.stream.drop 40).take 4)) : ℚ) * h.pixel_size ∧
    h.frame_height =
      (toSigned 32 (leNat ((st.stream.drop 44).take 4)) : ℚ) * h.pixel_size := by
  rw [parse_header_run] at hrun
  by_cases hlen : 48 ≤ st.stream.length
  · rw [if_pos hlen] at hrun
    obtain ⟨rfl, -⟩ : h = headerOf st.stream ∧ True := by
      cases hrun
      exact ⟨rfl, trivial⟩
    exact ⟨rfl, rfl, rfl⟩
  · rw [if_neg hlen] at hrun
    cases hrun

theorem spec_C6_header_scaling_witness :
    (headerOf (List.replicate 48 0)).pixel_size =
      (1 / 10000 : ℚ) *
        f32 (((List.replicate 48 0 : List Nat).drop 16).take 4) ∧
    (headerOf (List.replicate 48 0)).frame_width =
      (toSigned 32 (leNat (((List.replicate 48 0 : List Nat).drop 40).take 4))
        : ℚ) * (headerOf (List.replicate 48 0)).pixel_size ∧
    (headerOf (List.replicate 48 0)).frame_height =
      (toSigned 32 (leNat (((List.replicate 48 0 : List Nat).drop 44).take 4))
        : ℚ) * (headerOf (List.replicate 48 0)).pixel_size :=
  spec_C6_header_scaling (initState (List.replicate 48 0))
    (headerOf (List.replicate 48 0))
    { initState (List.replicate 48 0) with
      stream := (List.replicate 48 0 : List Nat).drop 48 }
    (by rw [parse_header_run, if_pos (by decide)]; rfl)

/-- C9 (amended): each of the four fixed-width reads succeeds exactly when
at least its width remains, never yields a partial value, and advances the
cursor by exactly its width; `skip(n)`, by contrast, never fails — with
fewer than `n` bytes left it silently advances to end-of-stream. -/
theorem spec_C9_primitive_reader (st : PState) (n : Nat) :
    (isOkR (get_next_int st) = true ↔ 4 ≤ st.stream.length) ∧
    (isOkR (get_next_float st) = true ↔ 4 ≤ st.stream.length) ∧
    (isOkR (get_next_short st) = true ↔ 2 ≤ st.stream.length) ∧
    (isOkR (get_next_byte st) = true ↔ 1 ≤ st.stream.length) ∧
    resStream (get_next_int st) = st.stream.drop 4 ∧
    resStream (get_next_float st) = st.stream.drop 4 ∧
    resStream (get_next_short st) = st.stream.drop 2 ∧
    resStream (get_next_byte st) = st.stream.drop 1 ∧
    skip n st = .ok () { st with stream := st.stream.drop n } := by
  rw [get_next_int_eq, get_next_float_eq, get_next_short_eq, get_next_byte_eq]
  by_cases h4 : 4 ≤ st.stream.length <;>
    by_cases h2 : 2 ≤ st.stream.length <;>
      by_cases h1 : 1 ≤ st.stream.length <;>
        simp [h4, h2, h1, isOkR, resStream, skip_eq]

/-- C9 counterexample: `skip` with fewer bytes remaining than requested is
not a fatal decode error — on an empty stream `skip 4` succeeds. -/
theorem spec_C9_counterexample :
    skip 4 (initState []) = .ok () (initState []) := rfl

/-- C4: a track is retained iff each of its six converted fields `d`, `e`,
`c`, `a`, `x`, `y` lies within its configured closed interval (inclusive on
both ends); the test is applied to the physically converted values; a
rejected track leaves the track state untouched; and the processed output
is exactly the converted tracks surviving the filter, so with all six
intervals unbounded the filtered set equals the unfiltered set. -/
theorem spec_C4_bounds_filter (caps : Caps) (bd : Bounds) (h : Header)
    (number : Int) (xp yp : ℚ) (d e c a x y : Int)
    (l : List (Int × Int × Int × Int × Int × Int))
    (tracks buf : List Track) :
    (accept bd (100 * (d : ℚ) * h.pixel_size) e c a
        (xp - (1 / 2 : ℚ) * h.frame_width + (x : ℚ) * h.pixel_size)
        (yp - (1 / 2 : ℚ) * h.frame_height + (y : ℚ) * h.pixel_size) = true ↔
      inIvl bd.d_bounds (100 * (d : ℚ) * h.pixel_size) ∧
      inIvl bd.e_bounds (e : ℚ) ∧ inIvl bd.c_bounds (c : ℚ) ∧
      inIvl bd.a_bounds (a : ℚ) ∧
      inIvl bd.x_bounds
        (xp - (1 / 2 : ℚ) * h.frame_width + (x : ℚ) * h.pixel_size) ∧
      inIvl bd.y_bounds
        (yp - (1 / 2 : ℚ) * h.frame_height + (y : ℚ) * h.pixel_size)) ∧
    (acceptT bd (convTrack h number xp yp (d, e, c, a, x, y)) = false →
      processTracks caps bd h number xp yp [(d, e, c, a, x, y)] (tracks, buf)
        = (tracks, buf)) ∧
    ((processTracks caps bd h number xp yp l (tracks, buf)).1 ++
        (processTracks caps bd h number xp yp l (tracks, buf)).2 =
      tracks ++ buf ++
        (l.map (convTrack h number xp yp)).filter (fun tr => acceptT bd tr)) ∧
    ((l.map (convTrack h number xp yp)).filter
        (fun tr => acceptT unboundedBounds tr) =
      l.map (convTrack h number xp yp)) := by
  refine ⟨accept_true_iff bd _ _ _ e c a, ?_, processTracks_join _ _ _ _ _ _ _
    _ _, ?_⟩
  · intro hfalse
    have hf2 : accept bd (100 * (d : ℚ) * h.pixel_size) e c a
        (xp - (1 / 2 : ℚ) * h.frame_width + (x : ℚ) * h.pixel_size)
        (yp - (1 / 2 : ℚ) * h.frame_height + (y : ℚ) * h.pixel_size) =
        false := hfalse
    simp only [processTracks, hf2, Bool.false_eq_true, if_false]
  · rw [List.filter_eq_self]
    intro tr _
    exact accept_unbounded tr.d tr.x tr.y tr.e tr.c tr.a

theorem spec_C4_bounds_filter_witness :
    processTracks defaultCaps defaultBounds hdrOne
      0 0 0 [(5, -1, 0, 0, 1, 1)] ([], []) = ([], []) :=
  (spec_C4_bounds_filter defaultCaps defaultBounds
    hdrOne 0 0 0 5 (-1) 0 0 1 1 [] [] []).2.1
    (by norm_num [acceptT, convTrack, accept, defaultBounds, hdrOne,
      qltE, qgtE])

/-- C7: every decoded track record carries `d = 100 × raw_d × pixel_size`,
`x = x_position − frame_width/2 + raw_x × pixel_size`,
`y = y_position − frame_height/2 + raw_y × pixel_size`, with `e`, `c`, `a`
passed through unscaled and the owning frame number attached; and the
per-frame track output is exactly these converted records, filtered. -/
theorem spec_C7_track_conversion (caps : Caps) (bd : Bounds) (h : Header)
    (number : Int) (xp yp : ℚ) (d e c a x y : Int)
    (l : List (Int × Int × Int × Int × Int × Int))
    (tracks buf : List Track) :
    (convTrack h number xp yp (d, e, c, a, x, y)).d =
        100 * (d : ℚ) * h.pixel_size ∧
    (convTrack h number xp yp (d, e, c, a, x, y)).x =
        xp - (1 / 2 : ℚ) * h.frame_width + (x : ℚ) * h.pixel_size ∧
    (convTrack h number xp yp (d, e, c, a, x, y)).y =
        yp - (1 / 2 : ℚ) * h.frame_height + (y : ℚ) * h.pixel_size ∧
    (convTrack h number xp yp (d, e, c, a, x, y)).e = e ∧
    (convTrack h number xp yp (d, e, c, a, x, y)).c = c ∧
    (convTrack h number xp yp (d, e, c, a, x, y)).a = a ∧
    (convTrack h number xp yp (d, e, c, a, x, y)).frame_number = number ∧
    ((processTracks caps bd h number xp yp l (tracks, buf)).1 ++
        (processTracks caps bd h number xp yp l (tracks, buf)).2 =
      tracks ++ buf ++
        (l.map (convTrack h number xp yp)).filter
          (fun tr => acceptT bd tr)) :=
  ⟨rfl, rfl, rfl, rfl, rfl, rfl, rfl,
    processTracks_join caps bd h number xp yp l tracks buf⟩

/-- C8 (amended): with no bounds supplied, `d`, `e`, `c`, `a` default to
`[0, +∞)` and `x`, `y` to `(-∞, +∞)`: the default configuration accepts
exactly the tracks whose `d`, `e`, `c`, `a` are all nonnegative, not every
track. -/
theorem spec_C8_default_bounds (du xc yc : ℚ) (e c a : Int) :
    accept defaultBounds du e c a xc yc = true ↔
      0 ≤ du ∧ 0 ≤ e ∧ 0 ≤ c ∧ 0 ≤ a := by
  rw [accept_true_iff]
  simp [defaultBounds, inIvl, lbLe, ubGe]

/-- C8 counterexample: the default bounds do not match every track — a
track whose converted fields are `d = 0, e = -1, c = 0, a = 0, x = 0,
y = 0` is rejected by the default configuration. -/
theorem spec_C8_counterexample :
    acceptT defaultBounds
      (convTrack hdrOne 0 0 0 (0, -1, 0, 0, 0, 0)) = false := by
  norm_num [acceptT, convTrack, accept, defaultBounds, hdrOne, qltE, qgtE]

/-- A non-aborting run of the frame loop produces exactly one frame record
per iteration. -/
theorem refLoop_frames_length (b : Bounds) (h : Header) :
    ∀ (n : Nat) (s : List Nat), (refLoop b h n s).2.2.2 = false →
      (refLoop b h n s).1.length = n := by
  intro n
  induction n with
  | zero => intro s _; simp [refLoop]
  | succ n ih =>
    intro s hflag
    rcases hdesc : refDescriptor s with _ | ⟨fr, s1⟩
    · rw [refLoop, hdesc] at hflag
      cases hflag
    · rcases harr : refArrays fr.num_tracks.toNat s1 with _ | ⟨⟨da, ea, ca, la, xa, ya⟩, s2⟩
      · rw [refLoop, hdesc] at hflag
        simp only [harr] at hflag
        cases hflag
      · rw [refLoop, hdesc] at hflag ⊢
        simp only [harr] at hflag ⊢
        simp only [List.length_cons]
        rw [ih s2 hflag]

/-- C5: every successfully decoded file yields exactly
`num_x_frames × num_y_frames` frame records, the product read from its own
header, for every capacity and bounds configuration.  (A file whose header
declares a negative frame-grid product is malformed and excluded: Python's
`range` of a negative count is empty.) -/
theorem spec_C5_frame_cardinality (caps : Caps) (b : Bounds)
    (file : List Nat) (h : Header)
    (hh : (scanData caps b file).header = some h)
    (he : (scanData caps b file).decode_error = false)
    (hn : 0 ≤ h.num_x_frames * h.num_y_frames) :
    ((scanData caps b file).frames.length : Int) =
      h.num_x_frames * h.num_y_frames := by
  rw [scanData_run] at hh he ⊢
  by_cases hlen : 48 ≤ file.length
  · rw [if_pos hlen] at hh he ⊢
    rcases Bool.eq_false_or_eq_true ((refLoop b (headerOf file)
        ((headerOf file).num_x_frames *
          (headerOf file).num_y_frames).toNat (file.drop 48)).2.2.2)
      with herr | herr
    · rw [if_pos herr] at hh he ⊢
      cases he
    · rw [if_neg (by simp [herr])] at hh he ⊢
      obtain ⟨rfl⟩ : headerOf file = h := by
        cases hh
        rfl
      simp only [refLoop_frames_length b (headerOf file) _ _ herr]
      rw [Int.toNat_of_nonneg hn]
  · rw [if_neg hlen] at he
    cases he

theorem spec_C5_frame_cardinality_witness :
    ((scanData defaultCaps defaultBounds file1x1).frames.length : Int) =
      (headerOf file1x1).num_x_frames * (headerOf file1x1).num_y_frames :=
  spec_C5_frame_cardinality defaultCaps defaultBounds file1x1
    (headerOf file1x1)
    (by rw [scanData_run, if_pos (by decide), if_neg (by decide)])
    (by rw [scanData_run, if_pos (by decide), if_neg (by decide)])
    (by decide)

/-- C10: a frame whose decoded `num_tracks` is negative is handled exactly
like `num_tracks = 0`: the iteration succeeds with no error, reads zero
track-array bytes (the cursor stays at the end of the 40-byte descriptor),
stages the frame record still carrying the negative count, and leaves the
track collections untouched. -/
theorem spec_C10_negative_num_tracks (caps : Caps) (b : Bounds) (h : Header)
    (st : PState) (fr : Frame) (s1 : List Nat)
    (hdesc : refDescriptor st.stream = some (fr, s1))
    (hneg : fr.num_tracks < 0) :
    parse_frame caps b h st =
      .ok () { stream := s1,
               frames := (pushF caps fr (st.frames, st.frame_buffer)).1,
               tracks := st.tracks,
               frame_buffer := (pushF caps fr (st.frames, st.frame_buffer)).2,
               track_buffer := st.track_buffer } := by
  have h0 : fr.num_tracks.toNat = 0 := Int.toNat_of_nonpos (le_of_lt hneg)
  have harr : refArrays fr.num_tracks.toNat s1 =
      some (([], [], [], [], [], []), s1) := by
    rw [h0]
    rfl
  have := ((parse_frame_run caps b h st).2 fr s1 hdesc).1 [] [] [] [] [] []
    s1 harr
  simpa [zip6, processTracks] using this

theorem spec_C10_negative_num_tracks_witness :
    parse_frame defaultCaps defaultBounds hdrOne (initState negDesc) =
      .ok ()
        { stream := negDesc.drop 40,
          frames := (pushF defaultCaps
            { number := intAt negDesc 0,
              x_position := (1 / 100000 : ℚ) * (intAt negDesc 4 : ℚ),
              y_position := (1 / 100000 : ℚ) * (intAt negDesc 8 : ℚ),
              num_tracks := intAt negDesc 12,
              focus := (1 / 100 : ℚ) * (intAt negDesc 28 : ℚ),
              x_position_index := intAt negDesc 32,
              y_position_index := intAt negDesc 36 } ([], [])).1,
          tracks := [],
          frame_buffer := (pushF defaultCaps
            { number := intAt negDesc 0,
              x_position := (1 / 100000 : ℚ) * (intAt negDesc 4 : ℚ),
              y_position := (1 / 100000 : ℚ) * (intAt negDesc 8 : ℚ),
              num_tracks := intAt negDesc 12,
              focus := (1 / 100 : ℚ) * (intAt negDesc 28 : ℚ),
              x_position_index := intAt negDesc 32,
              y_position_index := intAt negDesc 36 } ([], [])).2,
          track_buffer := [] } :=
  spec_C10_negative_num_tracks defaultCaps defaultBounds hdrOne
    (initState negDesc)
    { number := intAt negDesc 0,
      x_position := (1 / 100000 : ℚ) * (intAt negDesc 4 : ℚ),
      y_position := (1 / 100000 : ℚ) * (intAt negDesc 8 : ℚ),
      num_tracks := intAt negDesc 12,
      focus := (1 / 100 : ℚ) * (intAt negDesc 28 : ℚ),
      x_position_index := intAt negDesc 32,
      y_position_index := intAt negDesc 36 }
    (negDesc.drop 40)
    (by rw [refDescriptor, if_pos (by decide)]; rfl)
    (by decide)

/-- The header is read entirely from the first 48 bytes: appending anything
after a 48-byte prefix does not change it. -/
theorem headerOf_append (hb rest : List Nat) (h : hb.length = 48) :
    headerOf (hb ++ rest) = headerOf hb := by
  have hslice : ∀ k : Nat, k + 4 ≤ 48 →
      ((hb ++ rest).drop k).take 4 = (hb.drop k).take 4 := by
    intro k hk
    rw [List.drop_append_of_le_length (by omega)]
    rw [List.take_append_of_le_length (by simp [List.length_drop]; omega)]
  simp only [headerOf, intAt, hslice 0 (by omega), hslice 4 (by omega),
    hslice 8 (by omega), hslice 12 (by omega), hslice 16 (by omega),
    hslice 20 (by omega), hslice 24 (by omega), hslice 28 (by omega),
    hslice 32 (by omega), hslice 36 (by omega), hslice 40 (by omega),
    hslice 44 (by omega)]

/-- Running the frame loop over a sequence of well-formed frame blocks
decodes each block in order, then continues with the remaining iteration
budget on the remaining bytes. -/
theorem refLoop_on_blocks (b : Bounds) (h : Header) :
    ∀ (bls : List EncFrameBlock) (n : Nat) (tail : List Nat),
      (∀ blk ∈ bls, wfBlock blk) → bls.length ≤ n →
      refLoop b h n ((bls.map blockBytes).flatten ++ tail) =
        ((bls.map (fun blk => blk.fr)) ++
            (refLoop b h (n - bls.length) tail).1,
          (bls.map (blockTracks b h)).flatten ++
            (refLoop b h (n - bls.length) tail).2.1,
          (refLoop b h (n - bls.length) tail).2.2.1,
          (refLoop b h (n - bls.length) tail).2.2.2) := by
  intro bls
  induction bls with
  | nil =>
    intro n tail _ _
    simp
  | cons blk bls ih =>
    intro n tail hwf hlen
    cases n with
    | zero => simp at hlen
    | succ m =>
      have hblk := hwf blk (by simp)
      have hdesc := hblk.1 (blk.arr ++ ((bls.map blockBytes).flatten ++ tail))
      have harr := hblk.2 ((bls.map blockBytes).flatten ++ tail)
      have hIH := ih m tail (fun x hx => hwf x (by simp [hx])) (by
        simp at hlen
        omega)
      have hstream : ((blk :: bls).map blockBytes).flatten ++ tail =
          blk.desc ++ (blk.arr ++ ((bls.map blockBytes).flatten ++ tail)) := by
        simp [blockBytes, List.append_assoc]
      rw [hstream, refLoop, hdesc]
      simp only [harr, hIH]
      simp [blockTracks, List.append_assoc, Nat.succ_sub_one]

/-- C2: decoding a file whose record region holds `K` complete frame
blocks, then frame `K`'s descriptor, then bytes on which the track-array
read truncates, yields exactly the frame records for frames `0..K`
(frame `K`'s descriptor precedes the truncation), the surviving tracks of
frames `0..K-1` only, flushes all staged records of both kinds into the
output collections, and reports a decode error — nothing already decoded
is dropped. -/
theorem spec_C2_truncation_flush (caps : Caps) (b : Bounds)
    (hb : List Nat) (bls : List EncFrameBlock) (dK cut : List Nat)
    (fK : Frame)
    (hhb : hb.length = 48)
    (hwf : ∀ blk ∈ bls, wfBlock blk)
    (hdK : refDescriptor (dK ++ cut) = some (fK, cut))
    (htrunc : refArrays fK.num_tracks.toNat cut = none)
    (hK : bls.length <
      ((headerOf hb).num_x_frames * (headerOf hb).num_y_frames).toNat) :
    scanData caps b
        (hb ++ ((bls.map blockBytes).flatten ++ (dK ++ cut))) =
      { header := some (headerOf hb),
        frames := (bls.map (fun blk => blk.fr)) ++ [fK],
        tracks := (bls.map (blockTracks b (headerOf hb))).flatten,
        trailer := none,
        decode_error := true } := by
  set file : List Nat :=
    hb ++ ((bls.map blockBytes).flatten ++ (dK ++ cut)) with hfile
  have hlen : 48 ≤ file.length := by
    simp [hfile, List.length_append]
    omega
  have hhead : headerOf file = headerOf hb := headerOf_append _ _ hhb
  have hdrop : file.drop 48 =
      (bls.map blockBytes).flatten ++ (dK ++ cut) := by
    rw [hfile, List.drop_append_of_le_length (by omega)]
    rw [List.drop_eq_nil_of_le (by omega), List.nil_append]
  obtain ⟨m, hm⟩ : ∃ m,
      ((headerOf hb).num_x_frames * (headerOf hb).num_y_frames).toNat -
        bls.length = m + 1 := ⟨_, (Nat.succ_pred_eq_of_pos (by omega)).symm⟩
  have hloop : refLoop b (headerOf hb)
      ((headerOf hb).num_x_frames * (headerOf hb).num_y_frames).toNat
      (file.drop 48) =
      ((bls.map (fun blk => blk.fr)) ++ [fK],
        (bls.map (blockTracks b (headerOf hb))).flatten ++ [],
        cut, true) := by
    rw [hdrop, refLoop_on_blocks b (headerOf hb) bls _ _ hwf (by omega), hm]
    rw [refLoop, hdK]
    simp only [htrunc]
  rw [scanData_run, if_pos hlen, hhead, hloop]
  simp

theorem spec_C2_truncation_flush_witness :
    scanData defaultCaps defaultBounds
        (hdr48 ++ ((([] : List EncFrameBlock).map blockBytes).flatten ++
          (oneDesc ++ [0]))) =
      { header := some (headerOf hdr48),
        frames := (([] : List EncFrameBlock).map (fun blk => blk.fr)) ++
          [{ number := intAt (oneDesc ++ [0]) 0,
             x_position := (1 / 100000 : ℚ) * (intAt (oneDesc ++ [0]) 4 : ℚ),
             y_position := (1 / 100000 : ℚ) * (intAt (oneDesc ++ [0]) 8 : ℚ),
             num_tracks := intAt (oneDesc ++ [0]) 12,
             focus := (1 / 100 : ℚ) * (intAt (oneDesc ++ [0]) 28 : ℚ),
             x_position_index := intAt (oneDesc ++ [0]) 32,
             y_position_index := intAt (oneDesc ++ [0]) 36 }],
        tracks := (([] : List EncFrameBlock).map
          (blockTracks defaultBounds (headerOf hdr48))).flatten,
        trailer := none,
        decode_error := true } :=
  spec_C2_truncation_flush defaultCaps defaultBounds hdr48 [] oneDesc [0]
    { number := intAt (oneDesc ++ [0]) 0,
      x_position := (1 / 100000 : ℚ) * (intAt (oneDesc ++ [0]) 4 : ℚ),
      y_position := (1 / 100000 : ℚ) * (intAt (oneDesc ++ [0]) 8 : ℚ),
      num_tracks := intAt (oneDesc ++ [0]) 12,
      focus := (1 / 100 : ℚ) * (intAt (oneDesc ++ [0]) 28 : ℚ),
      x_position_index := intAt (oneDesc ++ [0]) 32,
      y_position_index := intAt (oneDesc ++ [0]) 36 }
    (by decide) (by simp)
    (by rw [refDescriptor, if_pos (by decide)]; rfl)
    (by rfl) (by decide)

end CR39
